import Mathlib

/-!
Shallow embedding of `aoc2024-1/src/main.rs` (Advent of Code 2024, day 1).

The Rust program has three pure components:

* `read_data_from_file` — opens a file, reads it line by line, splits each
  line on whitespace, keeps the tokens that parse as `i32`, and when exactly
  two integers remain pushes the first onto a left list and the second onto a
  right list.  A line whose read failed (`if let Ok(record) = line`) is
  skipped.  Only the initial `File::open` propagates an error.
* `calculate_total_distance` — sorts both lists ascending, zips them, and sums
  the absolute differences with `i32` arithmetic.
* `calculate_similarity_score` — builds a frequency table of the right list
  and sums `num * count` over the left list with `i32` arithmetic.

`i32` values are embedded as `Int` together with the two's-complement
wraparound `wrap32` applied wherever the Rust program performs `i32`
arithmetic (release-profile overflow semantics).  File access is embedded as
`Option (List LineRead)`: `none` is a failed open, and each line is either a
successfully read record or a mid-stream read error.
-/

/-- Two's-complement wraparound onto the `i32` range `[-2^31, 2^31)`. -/
def wrap32 (x : Int) : Int := (x + 2^31) % 2^32 - 2^31

/-- `i32` addition (wrapping, the release-profile overflow behaviour). -/
def add32 (a b : Int) : Int := wrap32 (a + b)

/-- `i32` subtraction (wrapping). -/
def sub32 (a b : Int) : Int := wrap32 (a - b)

/-- `i32` multiplication (wrapping). -/
def mul32 (a b : Int) : Int := wrap32 (a * b)

/-- `i32::abs` (wrapping: `(-2^31).abs()` wraps back to `-2^31`). -/
def abs32 (x : Int) : Int := wrap32 (x.natAbs : Int)

/-- Whitespace test used by `str::split_whitespace`. -/
def isWS (c : Char) : Bool := c.isWhitespace

/-- Helper for `splitWS`: accumulates the current token (reversed). -/
def splitWSAux : List Char → List Char → List (List Char)
  | [], cur => if cur.isEmpty then [] else [cur.reverse]
  | c :: rest, cur =>
    if isWS c then
      if cur.isEmpty then splitWSAux rest []
      else cur.reverse :: splitWSAux rest []
    else splitWSAux rest (c :: cur)

/-- `record.split_whitespace()`: split on runs of whitespace, no empty tokens. -/
def splitWS (cs : List Char) : List (List Char) := splitWSAux cs []

/-- Numeric value of an ASCII digit, `none` for any other character. -/
def digitVal (c : Char) : Option Nat :=
  if '0' ≤ c ∧ c ≤ '9' then some (c.toNat - '0'.toNat) else none

/-- Parse a non-empty all-digit token to a natural number. -/
def parseDigits (cs : List Char) : Option Nat :=
  if cs.isEmpty then none
  else
    cs.foldl
      (fun acc c =>
        match acc, digitVal c with
        | some a, some d => some (a * 10 + d)
        | _, _ => none)
      (some 0)

/-- `x.parse::<i32>()`: optional sign, one or more ASCII digits, value must
fit in the `i32` range, otherwise `None`. -/
def parseI32 (cs : List Char) : Option Int :=
  match cs with
  | '+' :: rest =>
    (parseDigits rest).bind fun n =>
      if (n : Int) ≤ 2^31 - 1 then some (n : Int) else none
  | '-' :: rest =>
    (parseDigits rest).bind fun n =>
      if (n : Int) ≤ 2^31 then some (-(n : Int)) else none
  | _ =>
    (parseDigits cs).bind fun n =>
      if (n : Int) ≤ 2^31 - 1 then some (n : Int) else none

/-- The per-line token pipeline of `read_data_from_file`:
`record.split_whitespace().filter_map(|x| x.parse::<i32>().ok()).collect()`. -/
def parseLine (record : List Char) : List Int :=
  (splitWS record).filterMap parseI32

/-- One element of `reader.lines()`: a successfully read record, or an
`io::Error` for this line. -/
inductive LineRead where
  | ok (record : List Char)
  | err
deriving DecidableEq

/-- The body of the `for line in reader.lines()` loop: a read error is
skipped (`if let Ok`), and a record is kept only when exactly two integers
survive the filter, the first pushed left and the second pushed right. -/
def readStep (acc : List Int × List Int) : LineRead → List Int × List Int
  | LineRead.err => acc
  | LineRead.ok record =>
    let numbers : List Int := parseLine record
    if h : numbers.length = 2 then
      (acc.1 ++ [numbers.get ⟨0, by omega⟩], acc.2 ++ [numbers.get ⟨1, by omega⟩])
    else acc

/-- `read_data_from_file`: `none` models a failed `File::open` (the `?`
propagates the error); `some lines` models a successful open whose
`reader.lines()` iterator yields `lines`. -/
def read_data_from_file (file : Option (List LineRead)) :
    Except Unit (List Int × List Int) :=
  match file with
  | none => Except.error ()
  | some lines => Except.ok (lines.foldl readStep ([], []))

/-- `Vec::sort` on `i32`: ascending by the standard order. -/
def sortInt (l : List Int) : List Int := l.insertionSort (· ≤ ·)

/-- The per-pair term of `calculate_total_distance`: `(l - r).abs()` in `i32`. -/
def distTerm (p : Int × Int) : Int := abs32 (sub32 p.1 p.2)

/-- `calculate_total_distance`: sort both lists, zip, sum `(l - r).abs()`
with an `i32` accumulator. -/
def calculate_total_distance (left_list right_list : List Int) : Int :=
  ((sortInt left_list).zip (sortInt right_list)).foldl
    (fun acc p => add32 acc (distTerm p)) 0

/-- The empty `HashMap<i32, i32>`. -/
def emptyCounts : Int → Option Int := fun _ => none

/-- `*right_counts.entry(num).or_insert(0) += 1`. -/
def bumpCount (m : Int → Option Int) (num : Int) : Int → Option Int :=
  fun k => if k = num then some (add32 ((m num).getD 0) 1) else m k

/-- The frequency table of `calculate_similarity_score`, built by folding
`bumpCount` over the right list. -/
def buildCounts (right_list : List Int) : Int → Option Int :=
  right_list.foldl bumpCount emptyCounts

/-- One iteration of the similarity loop: on `Some(count)` add
`num * count` (in `i32`), on `None` leave the accumulator unchanged. -/
def simStep (rc : Int → Option Int) (acc num : Int) : Int :=
  match rc num with
  | some count => add32 acc (mul32 num count)
  | none => acc

/-- `calculate_similarity_score`: build the frequency table of the right
list, then fold the similarity loop over the left list. -/
def calculate_similarity_score (left_list right_list : List Int) : Int :=
  let right_counts := buildCounts right_list
  left_list.foldl (simStep right_counts) 0

/-! ## Spec-side definitions

These restate the specification's wording, to be compared with the embedded
code above. -/

/-- Spec-side line rule: split on whitespace, filter to the tokens that parse
as `i32`; keep the line iff exactly two integers remain, the first going
left and the second going right.  A line whose read failed contributes
nothing. -/
def specKeepLine : LineRead → Option (Int × Int)
  | LineRead.err => none
  | LineRead.ok record =>
    let ints := (splitWS record).filterMap parseI32
    if h : ints.length = 2 then
      some (ints.get ⟨0, by omega⟩, ints.get ⟨1, by omega⟩)
    else none

/-- Spec-side parser result: the kept (left, right) pairs, in file order. -/
def specPairs (lines : List LineRead) : List (Int × Int) :=
  lines.filterMap specKeepLine

/-- Spec-side distance: sort each list ascending, pair element `i` of
sorted-left with element `i` of sorted-right for `i < min` of the lengths,
and sum the (mathematical) absolute differences. -/
def specTotalDistance (L R : List Int) : Int :=
  ((List.range (min L.length R.length)).map
    (fun i => (((sortInt L).getD i 0 - (sortInt R).getD i 0).natAbs : Int))).sum

/-- Spec-side similarity: for each occurrence of `v` in the left list add
`v` times the number of occurrences of `v` in the right list (mathematical
arithmetic, absent values contributing `v * 0 = 0`). -/
def specSimilarity (L R : List Int) : Int :=
  (L.map (fun v => v * (R.count v : Int))).sum

/-! ## Arithmetic lemmas about `wrap32` -/

lemma wrap32_eq_self {x : Int} (h1 : -2^31 ≤ x) (h2 : x < 2^31) :
    wrap32 x = x := by
  unfold wrap32; omega

lemma wrap32_zero : wrap32 0 = 0 := by unfold wrap32; omega

lemma wrap32_wrap32 (x : Int) : wrap32 (wrap32 x) = wrap32 x := by
  unfold wrap32; omega

lemma wrap32_add_left (a b : Int) : wrap32 (wrap32 a + b) = wrap32 (a + b) := by
  unfold wrap32; omega

/-- `(l - r).abs()` in `i32` is symmetric in its arguments even with
wraparound. -/
lemma distTerm_swap (p : Int × Int) : distTerm p.swap = distTerm p := by
  obtain ⟨a, b⟩ := p
  simp only [Prod.swap_prod_mk, distTerm, abs32, sub32]
  unfold wrap32
  omega

lemma distTerm_self (a : Int) : distTerm (a, a) = 0 := by
  simp only [distTerm, abs32, sub32]
  unfold wrap32
  omega

/-- When the mathematical absolute difference fits in `i32`, the `i32`
computation `(l - r).abs()` is exact. -/
lemma distTerm_eq_exact {p : Int × Int}
    (h : ((p.1 - p.2).natAbs : Int) < 2^31) :
    distTerm p = ((p.1 - p.2).natAbs : Int) := by
  simp only [distTerm, abs32, sub32]
  unfold wrap32
  omega

/-! ## Folding lemmas collapsing the `i32` accumulators -/

/-- The body of the distance fold, named for use in proofs. -/
def distStep (acc : Int) (p : Int × Int) : Int := add32 acc (distTerm p)

/-- The distance loop accumulates `wrap32` of the mathematical sum of its
(already wrapped) per-pair terms. -/
lemma foldl_distStep (ps : List (Int × Int)) (a : Int) :
    ps.foldl distStep (wrap32 a) = wrap32 (a + (ps.map distTerm).sum) := by
  induction ps generalizing a with
  | nil => simp
  | cons p ps ih =>
    rw [List.foldl_cons]
    have h1 : distStep (wrap32 a) p = wrap32 (a + distTerm p) :=
      wrap32_add_left a (distTerm p)
    rw [h1, ih (a + distTerm p), List.map_cons, List.sum_cons, add_assoc]

lemma calculate_total_distance_eq_wrap (L R : List Int) :
    calculate_total_distance L R =
      wrap32 ((((sortInt L).zip (sortInt R)).map distTerm).sum) := by
  show ((sortInt L).zip (sortInt R)).foldl distStep 0 = _
  have h0 : (0 : Int) = wrap32 0 := wrap32_zero.symm
  rw [h0, foldl_distStep, zero_add]

/-- Per-element value of the similarity loop body, as a pure contribution. -/
def simContrib (rc : Int → Option Int) (num : Int) : Int :=
  match rc num with
  | some count => mul32 num count
  | none => 0

/-- The similarity loop accumulates `wrap32` of the mathematical sum of its
per-element contributions. -/
lemma foldl_simStep (rc : Int → Option Int) (l : List Int) (a : Int) :
    l.foldl (simStep rc) (wrap32 a) = wrap32 (a + (l.map (simContrib rc)).sum) := by
  induction l generalizing a with
  | nil => simp
  | cons x xs ih =>
    rw [List.foldl_cons, List.map_cons, List.sum_cons]
    rcases hx : rc x with _ | c
    · have h1 : simStep rc (wrap32 a) x = wrap32 a := by
        unfold simStep; rw [hx]
      have h2 : simContrib rc x = 0 := by
        unfold simContrib; rw [hx]
      rw [h1, ih a, h2, zero_add]
    · have h1 : simStep rc (wrap32 a) x = wrap32 (a + mul32 x c) := by
        unfold simStep; rw [hx]; exact wrap32_add_left a (mul32 x c)
      have h2 : simContrib rc x = mul32 x c := by
        unfold simContrib; rw [hx]
      rw [h1, ih (a + mul32 x c), h2, add_assoc]

lemma calculate_similarity_score_eq_wrap (L R : List Int) :
    calculate_similarity_score L R =
      wrap32 ((L.map (simContrib (buildCounts R))).sum) := by
  show L.foldl (simStep (buildCounts R)) 0 = _
  have h0 : (0 : Int) = wrap32 0 := wrap32_zero.symm
  rw [h0, foldl_simStep, zero_add]

/-! ## The frequency table -/

/-- Every value stored in a count map is already wrapped. -/
def wrappedMap (m : Int → Option Int) : Prop :=
  ∀ k c, m k = some c → wrap32 c = c

lemma wrappedMap_empty : wrappedMap emptyCounts := by
  intro k c h
  simp [emptyCounts] at h

lemma wrappedMap_bumpCount {m : Int → Option Int} (hm : wrappedMap m)
    (num : Int) : wrappedMap (bumpCount m num) := by
  intro k c h
  unfold bumpCount at h
  by_cases hk : k = num
  · rw [if_pos hk] at h
    cases h
    exact wrap32_wrap32 _
  · rw [if_neg hk] at h
    exact hm k c h

/-- Folding `bumpCount` adds the number of occurrences (wrapped) to each key. -/
lemma foldl_bumpCount (l : List Int) (m : Int → Option Int)
    (hm : wrappedMap m) (k : Int) :
    l.foldl bumpCount m k =
      match m k with
      | none =>
        if l.count k = 0 then none else some (wrap32 (l.count k : Int))
      | some c => some (wrap32 (c + (l.count k : Int))) := by
  induction l generalizing m with
  | nil =>
    rcases h : m k with _ | c
    · simp [h]
    · simp only [List.foldl_nil, h, List.count_nil]
      rw [Int.natCast_zero, add_zero, hm k c h]
  | cons x xs ih =>
    rw [List.foldl_cons]
    have hm2 : wrappedMap (bumpCount m x) := wrappedMap_bumpCount hm x
    rw [ih (bumpCount m x) hm2]
    by_cases hkx : k = x
    · subst hkx
      have hb : bumpCount m k k = some (add32 ((m k).getD 0) 1) := by
        unfold bumpCount; rw [if_pos rfl]
      rw [hb, List.count_cons_self]
      rcases h : m k with _ | c
      · dsimp only
        rw [Option.getD_none]
        have hone : add32 0 1 = 1 := by unfold add32 wrap32; norm_num
        have hne : ¬(xs.count k + 1 = 0) := by omega
        rw [hone, if_neg hne]
        have harg : (1 : Int) + (xs.count k : Int) =
            ((xs.count k + 1 : Nat) : Int) := by push_cast; ring
        rw [harg]
      · dsimp only
        rw [Option.getD_some]
        have hstep : add32 c 1 = wrap32 (c + 1) := rfl
        rw [hstep, wrap32_add_left]
        have harg : c + 1 + (xs.count k : Int) =
            c + ((xs.count k + 1 : Nat) : Int) := by push_cast; ring
        rw [harg]
    · have hxk : x ≠ k := fun h => hkx h.symm
      have hb : bumpCount m x k = m k := by
        unfold bumpCount; rw [if_neg hkx]
      rw [hb, List.count_cons_of_ne (fun h => hxk h.symm)]

/-- `buildCounts` is the (wrapped) occurrence count, present iff positive. -/
lemma buildCounts_eq (r : List Int) (k : Int) :
    buildCounts r k =
      if r.count k = 0 then none else some (wrap32 (r.count k : Int)) := by
  unfold buildCounts
  rw [foldl_bumpCount r emptyCounts wrappedMap_empty k]
  rfl

/-! ## The parser loop -/

/-- The kept branch of the loop body, as an equation. -/
lemma readStep_ok_len (acc : List Int × List Int) (record : List Char)
    (h : (parseLine record).length = 2) :
    readStep acc (LineRead.ok record) =
      (acc.1 ++ [(parseLine record).get ⟨0, by omega⟩],
       acc.2 ++ [(parseLine record).get ⟨1, by omega⟩]) := by
  unfold readStep
  exact dif_pos h

/-- The dropped branch of the loop body, as an equation. -/
lemma readStep_ok_ne (acc : List Int × List Int) (record : List Char)
    (h : ¬(parseLine record).length = 2) :
    readStep acc (LineRead.ok record) = acc := by
  unfold readStep
  exact dif_neg h

lemma specKeepLine_ok_len (record : List Char)
    (h : (parseLine record).length = 2) :
    specKeepLine (LineRead.ok record) =
      some ((parseLine record).get ⟨0, by omega⟩,
            (parseLine record).get ⟨1, by omega⟩) := by
  unfold specKeepLine
  exact dif_pos h

lemma specKeepLine_ok_ne (record : List Char)
    (h : ¬(parseLine record).length = 2) :
    specKeepLine (LineRead.ok record) = none := by
  unfold specKeepLine
  exact dif_neg h

/-- One loop iteration agrees with the spec-side line rule. -/
lemma readStep_eq_specKeepLine (acc : List Int × List Int) (lr : LineRead) :
    readStep acc lr =
      match specKeepLine lr with
      | some p => (acc.1 ++ [p.1], acc.2 ++ [p.2])
      | none => acc := by
  cases lr with
  | err => rfl
  | ok record =>
    by_cases h : (parseLine record).length = 2
    · rw [readStep_ok_len acc record h, specKeepLine_ok_len record h]
    · rw [readStep_ok_ne acc record h, specKeepLine_ok_ne record h]

/-- Unrolling the whole parser loop: it appends exactly the spec-side pairs,
left components to the left list and right components to the right list. -/
lemma foldl_readStep (lines : List LineRead) :
    ∀ l r : List Int,
      lines.foldl readStep (l, r) =
        (l ++ (specPairs lines).map Prod.fst, r ++ (specPairs lines).map Prod.snd) := by
  induction lines with
  | nil => intro l r; simp [specPairs]
  | cons lr rest ih =>
    intro l r
    rw [List.foldl_cons, readStep_eq_specKeepLine (l, r) lr]
    have hsp : specPairs (lr :: rest) =
        match specKeepLine lr with
        | some p => p :: specPairs rest
        | none => specPairs rest := by
      unfold specPairs
      rcases h : specKeepLine lr with _ | p
      · rw [List.filterMap_cons_none h]
      · rw [List.filterMap_cons_some h]
    rcases h : specKeepLine lr with _ | p
    · rw [h] at hsp
      rw [hsp, ih l r]
    · rw [h] at hsp
      rw [hsp, ih (l ++ [p.1]) (r ++ [p.2]), List.map_cons, List.map_cons]
      rw [List.append_assoc, List.append_assoc]
      rfl

/-! ## Sorting facts -/

lemma sortInt_sorted (l : List Int) : List.Sorted (· ≤ ·) (sortInt l) :=
  List.sorted_insertionSort _ l

lemma sortInt_perm (l : List Int) : List.Perm (sortInt l) l :=
  List.perm_insertionSort _ l

/-- Two lists that are permutations of each other sort to the same list. -/
lemma sortInt_eq_of_perm {l₁ l₂ : List Int} (h : List.Perm l₁ l₂) :
    sortInt l₁ = sortInt l₂ :=
  List.eq_of_perm_of_sorted
    ((sortInt_perm l₁).trans (h.trans (sortInt_perm l₂).symm))
    (sortInt_sorted l₁) (sortInt_sorted l₂)

/-! ## Bridging the indexed spec sum and the zipped code sum -/

/-- Indexing two lists over `[0, min)` is the same as zipping them. -/
lemma range_min_map_eq_zip_map (f : Int → Int → Int) :
    ∀ A B : List Int,
      (List.range (min A.length B.length)).map
        (fun i => f (A.getD i 0) (B.getD i 0)) =
      (A.zip B).map (fun p => f p.1 p.2) := by
  intro A
  induction A with
  | nil => intro B; simp
  | cons a A ih =>
    intro B
    cases B with
    | nil => simp
    | cons b B =>
      have hmin : min (a :: A).length ((b :: B).length) = min A.length B.length + 1 := by
        simp [List.length_cons]
        omega
      rw [hmin, List.range_succ_eq_map, List.map_cons]
      have hzip : (a :: A).zip (b :: B) = (a, b) :: A.zip B := rfl
      rw [hzip, List.map_cons, List.map_map]
      have htail :
          List.map ((fun i => f ((a :: A).getD i 0) ((b :: B).getD i 0)) ∘ Nat.succ)
            (List.range (min A.length B.length)) =
          List.map (fun p => f p.1 p.2) (A.zip B) := ih B
      rw [htail]
      rfl

/-- The mathematical (non-wrapping) per-pair distance term. -/
def exactTerm (p : Int × Int) : Int := ((p.1 - p.2).natAbs : Int)

lemma exactTerm_nonneg (p : Int × Int) : 0 ≤ exactTerm p := by
  unfold exactTerm
  omega

/-- The indexed spec sum is the zipped sum of exact terms. -/
lemma specTotalDistance_eq_zip_sum (L R : List Int) :
    specTotalDistance L R = (((sortInt L).zip (sortInt R)).map exactTerm).sum := by
  unfold specTotalDistance
  have hlen1 : L.length = (sortInt L).length := (sortInt_perm L).length_eq.symm
  have hlen2 : R.length = (sortInt R).length := (sortInt_perm R).length_eq.symm
  rw [hlen1, hlen2,
    range_min_map_eq_zip_map (fun x y => (((x - y).natAbs : Nat) : Int))
      (sortInt L) (sortInt R)]
  rfl

lemma specTotalDistance_nonneg (L R : List Int) : 0 ≤ specTotalDistance L R := by
  rw [specTotalDistance_eq_zip_sum]
  apply List.sum_nonneg
  intro x hx
  obtain ⟨p, _, rfl⟩ := List.mem_map.mp hx
  exact exactTerm_nonneg p

/-- When the mathematical total distance fits in `i32`, the `i32` computation
is exact. -/
lemma ctd_eq_spec {L R : List Int} (h : specTotalDistance L R < 2^31) :
    calculate_total_distance L R = specTotalDistance L R := by
  rw [calculate_total_distance_eq_wrap]
  have hspec := specTotalDistance_eq_zip_sum L R
  have hnn : ∀ x ∈ ((sortInt L).zip (sortInt R)).map exactTerm, 0 ≤ x := by
    intro x hx
    obtain ⟨p, _, rfl⟩ := List.mem_map.mp hx
    exact exactTerm_nonneg p
  have hterm : ∀ p ∈ (sortInt L).zip (sortInt R), distTerm p = exactTerm p := by
    intro p hp
    have hmem : exactTerm p ∈ ((sortInt L).zip (sortInt R)).map exactTerm :=
      List.mem_map_of_mem exactTerm hp
    have hle : exactTerm p ≤ (((sortInt L).zip (sortInt R)).map exactTerm).sum :=
      List.single_le_sum hnn _ hmem
    have hlt : ((p.1 - p.2).natAbs : Int) < 2^31 := by
      have : exactTerm p < 2^31 := by omega
      exact this
    exact distTerm_eq_exact hlt
  rw [List.map_congr_left hterm, hspec]
  have h0 : 0 ≤ specTotalDistance L R := specTotalDistance_nonneg L R
  exact wrap32_eq_self (by omega) (by omega)

/-- Symmetry of the `i32` distance, wraparound included. -/
lemma ctd_comm (L R : List Int) :
    calculate_total_distance L R = calculate_total_distance R L := by
  rw [calculate_total_distance_eq_wrap, calculate_total_distance_eq_wrap]
  congr 1
  have hz : (sortInt R).zip (sortInt L) =
      ((sortInt L).zip (sortInt R)).map Prod.swap :=
    (List.zip_swap (sortInt L) (sortInt R)).symm
  rw [hz, List.map_map]
  exact (congrArg List.sum
    (List.map_congr_left (fun p _ => distTerm_swap p))).symm

lemma zip_self_map_distTerm_sum (l : List Int) :
    ((l.zip l).map distTerm).sum = 0 := by
  induction l with
  | nil => rfl
  | cons a l ih =>
    have hz : (a :: l).zip (a :: l) = (a, a) :: l.zip l := rfl
    rw [hz, List.map_cons, List.sum_cons, distTerm_self, ih]
    norm_num

/-- Permutation-equal inputs give total distance 0 (all paired diffs vanish). -/
lemma ctd_zero_of_perm {L R : List Int} (h : List.Perm L R) :
    calculate_total_distance L R = 0 := by
  rw [calculate_total_distance_eq_wrap, sortInt_eq_of_perm h,
    zip_self_map_distTerm_sum, wrap32_zero]

/-! ## Similarity-score helpers -/

lemma simContrib_buildCounts (R : List Int) (v : Int) :
    simContrib (buildCounts R) v =
      if R.count v = 0 then 0 else mul32 v (wrap32 (R.count v : Int)) := by
  unfold simContrib
  rw [buildCounts_eq]
  by_cases h : R.count v = 0
  · rw [if_pos h, if_pos h]
  · rw [if_neg h, if_neg h]

/-- `wrap32` identifies integers congruent modulo `2^32`. -/
lemma wrap32_congr {x y : Int} (h : Int.ModEq (2^32) x y) :
    wrap32 x = wrap32 y := by
  unfold Int.ModEq at h
  unfold wrap32
  omega

/-- `wrap32 x` is congruent to `x` modulo `2^32`. -/
lemma wrap32_modEq (x : Int) : Int.ModEq (2^32) (wrap32 x) x := by
  unfold wrap32 Int.ModEq
  omega

/-- Each wrapped loop contribution is congruent to the mathematical term
`v * count` modulo `2^32`, signs and magnitudes unrestricted. -/
lemma simContrib_modEq (R : List Int) (v : Int) :
    Int.ModEq (2^32) (simContrib (buildCounts R) v) (v * (R.count v : Int)) := by
  rw [simContrib_buildCounts]
  by_cases h : R.count v = 0
  · rw [if_pos h, h]
    norm_num
  · rw [if_neg h]
    have h1 : Int.ModEq (2^32) (mul32 v (wrap32 (R.count v : Int)))
        (v * wrap32 (R.count v : Int)) := wrap32_modEq _
    have h2 : Int.ModEq (2^32) (v * wrap32 (R.count v : Int))
        (v * (R.count v : Int)) := (wrap32_modEq (R.count v : Int)).mul_left v
    exact h1.trans h2

/-- Pointwise congruent maps have congruent sums. -/
lemma map_sum_modEq (L : List Int) (f g : Int → Int)
    (h : ∀ v ∈ L, Int.ModEq (2^32) (f v) (g v)) :
    Int.ModEq (2^32) ((L.map f).sum) ((L.map g).sum) := by
  induction L with
  | nil => rfl
  | cons x xs ih =>
    rw [List.map_cons, List.map_cons, List.sum_cons, List.sum_cons]
    exact (h x (by simp)).add (ih fun v hv => h v (by simp [hv]))

/-- Unconditionally, the `i32` similarity score is the wraparound of the
mathematical frequency-weighted score. -/
lemma css_wrap_spec (L R : List Int) :
    calculate_similarity_score L R = wrap32 (specSimilarity L R) := by
  rw [calculate_similarity_score_eq_wrap]
  exact wrap32_congr
    (map_sum_modEq L (simContrib (buildCounts R)) (fun v => v * (R.count v : Int))
      (fun v _ => simContrib_modEq R v))

/-- The similarity score only depends on the multisets of the two lists. -/
lemma css_perm {L R Lp Rp : List Int} (hL : List.Perm L Lp)
    (hR : List.Perm R Rp) :
    calculate_similarity_score Lp Rp = calculate_similarity_score L R := by
  rw [calculate_similarity_score_eq_wrap, calculate_similarity_score_eq_wrap]
  congr 1
  have hc : ∀ v, simContrib (buildCounts Rp) v = simContrib (buildCounts R) v := by
    intro v
    rw [simContrib_buildCounts, simContrib_buildCounts, ← hR.count_eq v]
  have h1 : Lp.map (simContrib (buildCounts Rp)) =
      Lp.map (simContrib (buildCounts R)) :=
    List.map_congr_left (fun v _ => hc v)
  rw [h1]
  exact ((hL.map (simContrib (buildCounts R))).sum_eq).symm

/-! ## Claims -/

/-- Claim C1: for every successfully opened input, `read_data_from_file`
processes each line by splitting on whitespace and filtering to the tokens
that parse as `i32`; exactly when 2 integers remain the first is appended to
the left sequence and the second to the right sequence, and the line is
otherwise dropped entirely (the spec-side rule `specKeepLine` and `specPairs`
state this policy). -/
theorem claim_C1_line_policy (lines : List LineRead) :
    read_data_from_file (some lines) =
      Except.ok ((specPairs lines).map Prod.fst, (specPairs lines).map Prod.snd) := by
  have h := foldl_readStep lines [] []
  rw [List.nil_append, List.nil_append] at h
  show Except.ok (lines.foldl readStep ([], [])) = _
  rw [h]

/-- Claim C2, counterexample: a mid-stream read error does not abort the
operation; the errored line is skipped and both the earlier and the later
lines are kept. -/
theorem claim_C2_cex :
    read_data_from_file
        (some [LineRead.ok ("1 2".toList), LineRead.err,
               LineRead.ok ("3 4".toList)]) =
      Except.ok ([1, 3], [2, 4]) := by
  rfl

/-- Claim C2, amended: `read_data_from_file` returns an I/O error exactly
when the file cannot be opened (with no partial data); a read error on an
individual line never aborts — the line is skipped (`if let Ok`) and the
remaining lines are processed as if the errored line were absent. -/
theorem claim_C2_amended :
    read_data_from_file none = Except.error () ∧
    ∀ ls1 ls2 : List LineRead,
      read_data_from_file (some (ls1 ++ LineRead.err :: ls2)) =
        read_data_from_file (some (ls1 ++ ls2)) := by
  refine ⟨rfl, ?_⟩
  intro ls1 ls2
  show Except.ok ((ls1 ++ LineRead.err :: ls2).foldl readStep ([], [])) =
    Except.ok ((ls1 ++ ls2).foldl readStep ([], []))
  rw [List.foldl_append, List.foldl_append, List.foldl_cons]
  rfl

/-- Claim C3, counterexample: with the program's 32-bit accumulator the
returned value differs from the mathematical sorted-pairing sum once that
sum overflows `i32` (here the true sum is `2 * (2^31 - 1)`). -/
theorem claim_C3_cex :
    calculate_total_distance [0, 0] [2147483647, 2147483647] ≠
      specTotalDistance [0, 0] [2147483647, 2147483647] := by
  decide

/-- Claim C3, amended: whenever the mathematical result fits in `i32` (no
overflow), `calculate_total_distance` equals the spec's algorithm: sort each
sequence ascending, pair element `i` of sorted-left with element `i` of
sorted-right for `i` below the shorter length, and sum the absolute
differences. -/
theorem claim_C3_distance_algorithm (L R : List Int)
    (h : specTotalDistance L R < 2^31) :
    calculate_total_distance L R = specTotalDistance L R :=
  ctd_eq_spec h

/-- Claim C3, witness: the amended theorem applied to the sample lists. -/
theorem claim_C3_witness :
    specTotalDistance [3, 4, 2, 1, 3, 3] [4, 3, 5, 3, 9, 3] < 2^31 ∧
    calculate_total_distance [3, 4, 2, 1, 3, 3] [4, 3, 5, 3, 9, 3] =
      specTotalDistance [3, 4, 2, 1, 3, 3] [4, 3, 5, 3, 9, 3] :=
  ⟨by decide, claim_C3_distance_algorithm _ _ (by decide)⟩

/-- Claim C4, counterexample: with the program's `i32` multiplication the
score differs from the mathematical frequency-weighted sum once a product
overflows (`2^30 * 4 = 2^32` wraps to `0`). -/
theorem claim_C4_cex :
    calculate_similarity_score [1073741824]
        [1073741824, 1073741824, 1073741824, 1073741824] ≠
      specSimilarity [1073741824]
        [1073741824, 1073741824, 1073741824, 1073741824] := by
  decide

/-- Claim C4, amended: whenever the mathematical score — the sum over each
occurrence of `v` in the left list of `v` times the number of occurrences of
`v` in the right list, values absent from the right list contributing
`v * 0 = 0` exactly as the code's default-0 lookup does — lies in the `i32`
range `[-2^31, 2^31)`, `calculate_similarity_score` equals it; the code
always returns its `wrap32`. -/
theorem claim_C4_similarity_algorithm (L R : List Int)
    (h1 : -2^31 ≤ specSimilarity L R) (h2 : specSimilarity L R < 2^31) :
    calculate_similarity_score L R = specSimilarity L R := by
  rw [css_wrap_spec]
  exact wrap32_eq_self h1 h2

/-- Claim C4, witness: the amended theorem applied to the sample lists and
to an all-negative input. -/
theorem claim_C4_witness :
    (-2^31 ≤ specSimilarity [3, 4, 2, 1, 3, 3] [4, 3, 5, 3, 9, 3] ∧
     specSimilarity [3, 4, 2, 1, 3, 3] [4, 3, 5, 3, 9, 3] < 2^31 ∧
     calculate_similarity_score [3, 4, 2, 1, 3, 3] [4, 3, 5, 3, 9, 3] =
       specSimilarity [3, 4, 2, 1, 3, 3] [4, 3, 5, 3, 9, 3]) ∧
    (-2^31 ≤ specSimilarity [-3] [-3] ∧ specSimilarity [-3] [-3] < 2^31 ∧
     calculate_similarity_score [-3] [-3] = specSimilarity [-3] [-3]) :=
  ⟨⟨by decide, by decide,
     claim_C4_similarity_algorithm _ _ (by decide) (by decide)⟩,
   ⟨by decide, by decide,
     claim_C4_similarity_algorithm _ _ (by decide) (by decide)⟩⟩

/-- The six lines of the worked example from the specification. -/
def sampleLines : List LineRead :=
  [LineRead.ok ("3   4".toList), LineRead.ok ("4 3".toList),
   LineRead.ok ("2 5".toList), LineRead.ok ("1 3".toList),
   LineRead.ok ("3 9".toList), LineRead.ok ("3 3".toList)]

/-- Claim C5: on the concrete six-line input the parser produces
`left = [3,4,2,1,3,3]` and `right = [4,3,5,3,9,3]`, the total distance is
11, and the similarity score is 31. -/
theorem claim_C5_example :
    read_data_from_file (some sampleLines) =
      Except.ok ([3, 4, 2, 1, 3, 3], [4, 3, 5, 3, 9, 3]) ∧
    calculate_total_distance [3, 4, 2, 1, 3, 3] [4, 3, 5, 3, 9, 3] = 11 ∧
    calculate_similarity_score [3, 4, 2, 1, 3, 3] [4, 3, 5, 3, 9, 3] = 31 :=
  ⟨by rfl, by decide, by decide⟩

/-- Claim C6: whenever `read_data_from_file` succeeds the two returned
sequences have equal length — each kept line contributes one element to
both, and a dropped line to neither. -/
theorem claim_C6_equal_lengths (lines : List LineRead) (l r : List Int)
    (h : read_data_from_file (some lines) = Except.ok (l, r)) :
    l.length = r.length := by
  have h2 := foldl_readStep lines [] []
  rw [List.nil_append, List.nil_append] at h2
  have h3 : (Except.ok ((specPairs lines).map Prod.fst,
      (specPairs lines).map Prod.snd) : Except Unit (List Int × List Int)) =
      Except.ok (l, r) := by
    rw [← h2]
    exact h
  injection h3 with h4
  rw [Prod.mk.injEq] at h4
  obtain ⟨hl, hr⟩ := h4
  rw [← hl, ← hr, List.length_map, List.length_map]

/-- Claim C6, witness: equal lengths on a one-line input. -/
theorem claim_C6_witness :
    (([1] : List Int)).length = (([2] : List Int)).length :=
  claim_C6_equal_lengths [LineRead.ok ("1 2".toList)] [1] [2] (by rfl)

/-- Claim C7: for equal-length sequences the total distance is symmetric in
its two arguments, and it is 0 whenever the two sequences are permutations
of each other. -/
theorem claim_C7_symmetric_and_zero (L R : List Int)
    (_hlen : L.length = R.length) :
    calculate_total_distance L R = calculate_total_distance R L ∧
    (List.Perm L R → calculate_total_distance L R = 0) :=
  ⟨ctd_comm L R, fun hp => ctd_zero_of_perm hp⟩

/-- Claim C7, witness: the theorem applied to `[1, 2]` and `[2, 1]`. -/
theorem claim_C7_witness :
    calculate_total_distance [1, 2] [2, 1] =
      calculate_total_distance [2, 1] [1, 2] ∧
    calculate_total_distance [1, 2] [2, 1] = 0 :=
  ⟨(claim_C7_symmetric_and_zero [1, 2] [2, 1] (by decide)).1,
    (claim_C7_symmetric_and_zero [1, 2] [2, 1] (by decide)).2 (by decide)⟩

/-- Claim C8, counterexample: the 32-bit accumulator makes the returned
"distance" negative once the true sum exceeds `i32` range: here the result
is `-2`. -/
theorem claim_C8_cex :
    calculate_total_distance [0, 0] [2147483647, 2147483647] < 0 := by
  decide

/-- Claim C8, amended: the returned total distance is non-negative whenever
the mathematical total distance fits in `i32` (no overflow in the 32-bit
accumulator). -/
theorem claim_C8_nonneg (L R : List Int) (h : specTotalDistance L R < 2^31) :
    0 ≤ calculate_total_distance L R := by
  rw [ctd_eq_spec h]
  exact specTotalDistance_nonneg L R

/-- Claim C8, witness: non-negativity on a small input. -/
theorem claim_C8_witness :
    specTotalDistance [1, 5] [2, 2] < 2^31 ∧
    0 ≤ calculate_total_distance [1, 5] [2, 2] :=
  ⟨by decide, claim_C8_nonneg [1, 5] [2, 2] (by decide)⟩

/-- Claim C9: the similarity score depends only on the multiset of values of
each list — permuting the left list and the right list independently leaves
it unchanged. -/
theorem claim_C9_perm_invariant (L R Lp Rp : List Int)
    (hL : List.Perm L Lp) (hR : List.Perm R Rp) :
    calculate_similarity_score Lp Rp = calculate_similarity_score L R :=
  css_perm hL hR

/-- Claim C9, witness: the theorem applied to concrete permutations. -/
theorem claim_C9_witness :
    List.Perm [3, 1] ([1, 3] : List Int) ∧
    List.Perm [2, 3] ([3, 2] : List Int) ∧
    calculate_similarity_score [1, 3] [3, 2] =
      calculate_similarity_score [3, 1] [2, 3] :=
  ⟨by decide, by decide,
    claim_C9_perm_invariant [3, 1] [2, 3] [1, 3] [3, 2] (by decide) (by decide)⟩

/-- Claim C10: the accesses to the first and second parsed integers happen
only under the guard that exactly two integers were parsed, so both index
accesses are in bounds; the line pipeline `parseLine` itself is total over
arbitrary line contents. -/
theorem claim_C10_guarded_access (record : List Char)
    (h : (parseLine record).length = 2) :
    ((parseLine record)[0]?).isSome ∧ ((parseLine record)[1]?).isSome := by
  constructor
  · rw [List.getElem?_eq_getElem (by omega)]
    rfl
  · rw [List.getElem?_eq_getElem (by omega)]
    rfl

/-- Claim C10, witness: in-bounds accesses on a concrete two-integer line. -/
theorem claim_C10_witness :
    ((parseLine ("1 2".toList))[0]?).isSome ∧
    ((parseLine ("1 2".toList))[1]?).isSome :=
  claim_C10_guarded_access ("1 2".toList) (by decide)
